import Mathlib

/-!
Shallow embedding of `ilastik/applets/objectExtraction/opObjectExtraction.py`:
the object-extraction operator family (OpRegionFeatures3d, OpRegionFeatures,
OpCachedRegionFeatures, OpAdaptTimeListRoi, OpObjectCenterImage,
OpObjectExtraction).  Python dicts with string keys are modelled as ordered
association lists, numpy arrays as a shape plus a total coordinate-indexed
data function, and Python `assert` / KeyError / IndexError as the `Except`
monad.
-/

namespace ObjExtract

/-- Python `assert b, msg`: no-op when `b` holds, raises AssertionError otherwise. -/
def pyAssert (b : Bool) (msg : String) : Except String Unit :=
  if b then .ok () else .error ("AssertionError: " ++ msg)

/-! Ordered dictionaries with `Char` keys and `Nat` values, as used by
`meta.getTaggedShape()` (an `OrderedDict` from one-letter axis keys to extents). -/

/-- Ordered dict: association list in key insertion order. -/
abbrev ODict := List (Char × Nat)

/-- Python `k in d.keys()`. -/
def odHasKey (d : ODict) (k : Char) : Bool := d.any (fun p => p.1 = k)

/-- Python `d[k]` (read): value of the entry with key `k`, KeyError when absent. -/
def odGet (d : ODict) (k : Char) : Except String Nat :=
  match d.find? (fun p => p.1 = k) with
  | some p => .ok p.2
  | none => .error ("KeyError")

/-- Python `d[k] = v`: replace the value in place when the key exists, append otherwise. -/
def odSet : ODict → Char → Nat → ODict
  | [], k, v => [(k, v)]
  | p :: rest, k, v => if p.1 = k then (k, v) :: rest else p :: odSet rest k v

/-- Python `del d[k]`: drop the entry, KeyError when absent. -/
def odDel : ODict → Char → Except String ODict
  | [], _ => .error ("KeyError")
  | p :: rest, k => if p.1 = k then .ok rest else (odDel rest k).map (p :: ·)

/-- Python `d.keys()` of an ordered dict. -/
def odKeys (d : ODict) : List Char := d.map Prod.fst

/-- Python `d.values()` of an ordered dict. -/
def odValues (d : ODict) : List Nat := d.map Prod.snd

/-- Python `OrderedDict(pairs)`: insert the pairs left to right
(`d[k] = v` semantics, so a repeated key keeps its first position, last value). -/
def mkODict (ps : List (Char × Nat)) : ODict :=
  ps.foldl (fun d p => odSet d p.1 p.2) []

/-- Python `xs.index(k)` on a list: index of the first occurrence, ValueError when absent. -/
def listIndex : List Char → Char → Except String Nat
  | [], _ => .error ("ValueError")
  | x :: rest, k => if x = k then .ok 0 else (listIndex rest k).map (· + 1)

/-! Slot metadata: published shape and axis tags (`meta.shape`, `meta.axistags`). -/

/-- Published metadata of a lazyflow slot: shape and axis-tag key sequence. -/
structure SlotMeta where
  shape : List Nat
  axistags : List Char
deriving DecidableEq

/-- The lazyflow `meta.getTaggedShape()`: `OrderedDict(zip(keys, shape))`. -/
def getTaggedShape (m : SlotMeta) : ODict := mkODict (m.axistags.zip m.shape)

/-! OpRegionFeatures3d.setupOutputs (opObjectExtraction.py lines 28-47). -/

/-- OpRegionFeatures3d.setupOutputs: asserts the label and raw metadata agree
(shape and axistags), that t and c extents are 1 when present and the remaining
axes are exactly xyz, then publishes the output metadata with the spatial axes
deleted (t and c kept, in their original order). -/
def opRegionFeatures3d_setupOutputs (raw label : SlotMeta) : Except String SlotMeta := do
  pyAssert (label.shape = raw.shape) ""
  pyAssert (label.axistags = raw.axistags) ""
  let taggedOutputShape := getTaggedShape label
  if odHasKey taggedOutputShape 't' then do
    let tv ← odGet taggedOutputShape 't'
    pyAssert (tv = 1) ""
  if odHasKey taggedOutputShape 'c' then do
    let cv ← odGet taggedOutputShape 'c'
    pyAssert (cv = 1) ""
  pyAssert ((odKeys taggedOutputShape).toFinset \ {'t', 'c'} = ({'x', 'y', 'z'} : Finset Char))
    "Input volumes must have xyz axes."
  let d1 ← odDel taggedOutputShape 'x'
  let d2 ← odDel d1 'y'
  let d3 ← odDel d2 'z'
  pure { shape := odValues d3, axistags := odKeys d3 }

/-- OpCachedRegionFeatures.setupOutputs (lines 218-224): asserts the label and raw
metadata agree, then sets the cache block shape to all-ones over the region-features
output dimensions. -/
def opCachedRegionFeatures_setupOutputs (raw label : SlotMeta) (featuresOutputLen : Nat) :
    Except String (List Nat) := do
  pyAssert (label.shape = raw.shape) ""
  pyAssert (label.axistags = raw.axistags) ""
  pure (List.replicate featuresOutputLen 1)

/-! OpRegionFeatures3d.propagateDirty (lines 82-96). -/

/-- OpRegionFeatures3d.propagateDirty: zips the raw volume's axis keys with the
dirty roi's start and stop, deletes the x, y and z entries from both ordered
dicts, and emits the remaining values as the dirty box for Output. -/
def opRegionFeatures3d_propagateDirty (rawMeta : SlotMeta) (start stop : List Nat) :
    Except String (List Nat × List Nat) := do
  let axes := odKeys (getTaggedShape rawMeta)
  let dirtyStart := mkODict (axes.zip start)
  let dirtyStop := mkODict (axes.zip stop)
  let s1 ← odDel dirtyStart 'x'
  let s2 ← odDel s1 'y'
  let s3 ← odDel s2 'z'
  let p1 ← odDel dirtyStop 'x'
  let p2 ← odDel p1 'y'
  let p3 ← odDel p2 'z'
  pure (odValues s3, odValues p3)

/-! Unconditional assertion failures of the purely-routing composite operators
(OpRegionFeatures.execute lines 186-187, OpCachedRegionFeatures.execute lines
226-227, OpObjectExtraction.execute lines 384-385). -/

/-- OpObjectExtraction.execute: `assert False` with the message `Shouldn\x27t get here.`. -/
def opObjectExtraction_execute {α : Type} (slot subindex : Nat) (start stop : List Nat)
    (result : α) : Except String α := do
  pyAssert (false) ("Shouldn\x27t get here.")
  pure result

/-- OpRegionFeatures.execute: `assert False` with the message `Shouldn\x27t get here.`. -/
def opRegionFeatures_execute {α : Type} (slot subindex : Nat) (start stop : List Nat)
    (destination : α) : Except String α := do
  pyAssert (false) ("Shouldn\x27t get here.")
  pure destination

/-- OpCachedRegionFeatures.execute: `assert False` with the message `Shouldn\x27t get here.`. -/
def opCachedRegionFeatures_execute {α : Type} (slot subindex : Nat) (start stop : List Nat)
    (destination : α) : Except String α := do
  pyAssert (false) ("Shouldn\x27t get here.")
  pure destination

/-! OpObjectCenterImage.propagateDirty (lines 321-323). -/

/-- The two input slots of OpObjectCenterImage. -/
inductive CenterImageSlot where
  | binaryImage
  | regionCenters
deriving DecidableEq

/-- OpObjectCenterImage.propagateDirty: when the dirty slot is RegionCenters the
whole Output extent is set dirty (`setDirty(slice(None))`, i.e. the full box over
the output shape); when it is BinaryImage nothing is propagated. -/
def opObjectCenterImage_propagateDirty (outputShape : List Nat) (slot : CenterImageSlot)
    (start stop : List Nat) : Option (List Nat × List Nat) :=
  match slot with
  | .regionCenters => some (List.replicate outputShape.length 0, outputShape)
  | .binaryImage => none

/-! Numpy arrays and lazyflow slot requests. -/

/-- A numpy array: a shape plus a total data function from coordinate vectors to
elements (reads are only meaningful for coordinates within the shape). -/
structure NdArray (α : Type) where
  shape : List Nat
  data : List Nat → α

/-- Componentwise sum of coordinate vectors (truncating to the shorter length,
as numpy broadcasting never arises here: lengths agree at every use). -/
def listAdd (xs ys : List Nat) : List Nat := List.zipWith (· + ·) xs ys

/-- Componentwise difference `stop - start` of a roi, giving the result extents. -/
def listSub (xs ys : List Nat) : List Nat := List.zipWith (· - ·) xs ys

/-- The sub-array of extents `stop - start` whose data is read at
`start`-translated coordinates. -/
def subArray {α : Type} (full : NdArray α) (start stop : List Nat) : NdArray α :=
  { shape := listSub stop start, data := fun rel => full.data (listAdd start rel) }

/-- A lazyflow slot request `slot(start, stop).wait()` against the slot's full
contents: allocating the destination fails with a negative-dimension ValueError
when any stop component is below its start component (an inverted roi); an
in-order roi (empty extents included) yields the sub-array. -/
def slotRequest {α : Type} (full : NdArray α) (start stop : List Nat) :
    Except String (NdArray α) :=
  if ∀ p ∈ start.zip stop, p.1 ≤ p.2 then .ok (subArray full start stop)
  else .error ("ValueError")

/-- A full-volume request `slot[:].wait()`: the request over the whole shape. -/
def slotReadAll {α : Type} (full : NdArray α) : Except String (NdArray α) :=
  slotRequest full (List.replicate full.shape.length 0) full.shape

/-- Expansion of a reduced coordinate vector back to the full axis list: axes in
`keep` consume successive components of `c`, dropped axes (extent 1) read index 0. -/
def expandCoord : List Char → List Char → List Nat → List Nat
  | [], _, _ => []
  | a :: rest, keep, c =>
    if a ∈ keep then c.headD 0 :: expandCoord rest keep c.tail
    else 0 :: expandCoord rest keep c

/-- The vigra `array.withAxes(*keep)` view for `keep` a subsequence of `tags`
(the use here: `keep` is the xyz axes filtered out of the original tag order, and
every dropped axis has extent 1): the selected axes keep their relative order and
the dropped axes are read at index 0. -/
def withAxes {α : Type} (tags keep : List Char) (a : NdArray α) : NdArray α :=
  { shape := ((tags.zip a.shape).filter (fun p => p.1 ∈ keep)).map Prod.snd,
    data := fun c => a.data (expandCoord tags keep c) }

/-- A numpy write `result[tuple(idx)] = v` into a buffer of the given shape:
IndexError when the index does not address a cell of the buffer. -/
def bufWrite {γ : Type} (shape : List Nat) (buf : List Nat → γ) (idx : List Nat) (v : γ) :
    Except String (List Nat → γ) :=
  if idx.length = shape.length ∧ ∀ p ∈ idx.zip shape, p.1 < p.2 then
    .ok (fun c => if c = idx then v else buf c)
  else .error ("IndexError")

/-! OpRegionFeatures3d.execute (lines 49-80). -/

/-- The spatial axis letters, in the filter order used by the source. -/
def xyzAxes : List Char := ['x', 'y', 'z']

/-- OpRegionFeatures3d.execute: asserts the roi has the output's dimensionality,
reads the ENTIRE RawVolume and LabelVolume (`slot[:]`), restricts both to their
spatial xyz axes (in original order), asserts the roi addresses exactly one cell,
extracts one region-feature record over the whole 3d volumes via the external
`vigra.analysis.extractRegionFeatures` (passed in as `extract`, which also absorbs
the float32/uint32 casts of `_extract`), and stores it at the roi's start. -/
def opRegionFeatures3d_execute {α β γ : Type}
    (extract : NdArray α → NdArray β → γ)
    (rawTags labelTags : List Char) (raw : NdArray α) (label : NdArray β)
    (outputLen : Nat) (start stop : List Nat) (result : List Nat → γ) :
    Except String (List Nat → γ) := do
  pyAssert (start.length = stop.length ∧ stop.length = outputLen : Bool) ""
  let rawVolume ← slotReadAll raw
  let labelVolume ← slotReadAll label
  let spatialAxes := (odKeys (mkODict (rawTags.zip raw.shape))).filter (fun k => k ∈ xyzAxes)
  let rawVolume3d := withAxes rawTags spatialAxes rawVolume
  let labelVolume3d := withAxes labelTags spatialAxes labelVolume
  pyAssert (((stop.zip start).map (fun p => (p.1 : Int) - (p.2 : Int))).prod = 1 : Bool) ""
  let acc := extract rawVolume3d labelVolume3d
  bufWrite (listSub stop start) result start acc

/-! OpAdaptTimeListRoi.execute (lines 246-272). -/

/-- Numpy `numpy.split(a, n, axis)`: `n` equal sections along `axis`
(the source always calls it with `n` equal to the axis extent, so each section
has extent 1 there). -/
def npSplit {α : Type} (a : NdArray α) (n : Nat) (axis : Nat) : List (NdArray α) :=
  let sec := a.shape.getD axis 0 / n
  (List.range n).map (fun i =>
    { shape := a.shape.set axis sec,
      data := fun c => a.data (c.set axis (c.getD axis 0 + i * sec)) })

/-- Numpy `a.flat[0]`: the first element in iteration order, i.e. the element at
the all-zero coordinate; IndexError on an array of size 0 (some extent 0). -/
def flatFirst {α : Type} (a : NdArray α) : Except String α :=
  if a.shape.prod = 0 then .error ("IndexError")
  else .ok (a.data (List.replicate a.shape.length 0))

/-- OpAdaptTimeListRoi.execute: reads the channel count and channel axis position
from the input's tagged shape, replaces an empty roi list by `range(T)`, sets the
tagged t extent to 1, and for each requested time fetches the box with
`start[timeIndex] = t` and `stop[timeIndex] = 1` (lines 264-265: the stop is the
constant 1, not t + 1) and splits the fetched array along the channel axis into
one record per channel, each extracted from its section by `.flat[0]`.  A raised
exception (inverted-box ValueError from the fetch, or IndexError from `.flat[0]`
on an empty section) aborts the whole call.  The Python dict result is modelled
as the association list of `(t, per-channel records)` in roi order. -/
def opAdaptTimeListRoi_execute {α : Type} (inputMeta : SlotMeta) (input : NdArray α)
    (roi : List Nat) : Except String (List (Nat × List α)) := do
  let taggedShape := getTaggedShape inputMeta
  let numChannels ← odGet taggedShape 'c'
  let channelIndex ← listIndex (odKeys taggedShape) 'c'
  let roi ← if roi.length = 0 then do
      let t ← odGet taggedShape 't'
      pure (List.range t)
    else pure roi
  let taggedShape := odSet taggedShape 't' 1
  let timeIndex ← listIndex (odKeys taggedShape) 't'
  roi.mapM (fun t => do
    let start := (List.replicate taggedShape.length 0).set timeIndex t
    let stop := (odValues taggedShape).set timeIndex 1
    let a ← slotRequest input start stop
    let channelResults := npSplit a numChannels channelIndex
    let recs ← channelResults.mapM flatFirst
    pure (t, recs))

/-! OpObjectCenterImage.execute (lines 288-319). -/

/-- A row of a RegionCenter feature table, already cast to uint32 as by
`numpy.asarray(centers, dtype=numpy.uint32)`: the (x, y, z) center coordinates. -/
abbrev CenterRow := Nat × Nat × Nat

/-- A RegionCenters table: for each time, the per-channel list of feature records,
each record represented by its RegionCenter row list (the only field the source
reads from the per-channel record dict). -/
abbrev CentersTable := Nat → List (List CenterRow)

/-- The output buffer of OpObjectCenterImage.execute, indexed by the roi-relative
integer keys produced by `__make_key`. -/
abbrev CenterBuf := List Int → Nat

/-- The Python variable `centers`, which the source reuses: it first holds the
dict fetched from `RegionCenters([t])`, then is reassigned to the row array of
the channel just processed. -/
inductive CentersVal where
  | dict (entries : List (Nat × List (List CenterRow)))
  | rows (rs : List CenterRow)

/-- The read `centers[t][ch]['RegionCenter']`: a dict lookup (KeyError when
absent), then a list index (IndexError when out of range); on the reassigned row
array the subscripting fails with a TypeError. -/
def centersAccess : CentersVal → Nat → Nat → Except String (List CenterRow)
  | .dict entries, t, ch =>
    match entries.find? (fun p => p.1 = t) with
    | none => .error ("KeyError")
    | some p =>
      match p.2.get? ch with
      | some record => .ok record
      | none => .error ("IndexError")
  | .rows _, _, _ => .error ("TypeError")

/-- The coordinate list `c = [t, x, y, z, ch]` built by the source. -/
def csList (t x y z ch : Nat) : List Int := [(t : Int), (x : Int), (y : Int), (z : Int), (ch : Int)]

/-- The in-place bump `c[dim] += offset`. -/
def bumpAt (c : List Int) (dim : Nat) (off : Int) : List Int :=
  c.set dim (c.getD dim 0 + off)

/-- OpObjectCenterImage.__contained_in_subregion: all coordinates lie within
the roi's half-open start/stop box. -/
def containedInSubregion (start stop : List Nat) (coords : List Int) : Bool :=
  (List.range coords.length).all (fun i =>
    decide ((start.getD i 0 : Int) ≤ coords.getD i 0) &&
    decide (coords.getD i 0 < (stop.getD i 0 : Int)))

/-- OpObjectCenterImage.__make_key: the roi-relative key `coords - roi.start`. -/
def makeKey (start : List Nat) (coords : List Int) : List Int :=
  (List.range start.length).map (fun i => coords.getD i 0 - (start.getD i 0 : Int))

/-- The nine bumped coordinates generated for one center: `dim` in (1, 2, 3),
`offset` in (-1, 0, 1) applied to `[t, x, y, z, ch]`. -/
def crossCoordsOf (t ch : Nat) (row : CenterRow) : List (List Int) :=
  ([1, 2, 3] : List Nat).flatMap (fun dim =>
    ([-1, 0, 1] : List Int).map (fun off => bumpAt (csList t row.1 row.2.1 row.2.2 ch) dim off))

/-- Painting of one center: each bumped coordinate inside the roi sets the buffer
to 255 at its roi-relative key. -/
def paintCenter (start stop : List Nat) (t ch : Nat) (row : CenterRow) (buf : CenterBuf) :
    CenterBuf :=
  (crossCoordsOf t ch row).foldl (fun b c =>
    if containedInSubregion start stop c then
      fun k => if k = makeKey start c then 255 else b k
    else b) buf

/-- The `for center in centers` loop over the (background-stripped) rows. -/
def paintRows (start stop : List Nat) (t ch : Nat) (rs : List CenterRow) (buf : CenterBuf) :
    CenterBuf :=
  rs.foldl (fun b r => paintCenter start stop t ch r b) buf

/-- The inner `for ch in range(roi.start[-1], roi.stop[-1])` loop: reads the rows
through the reused `centers` variable (so only the first channel iteration sees
the fetched dict), strips row 0 when the table is non-empty, paints the remaining
rows, and leaves the row array in the variable for the next iteration. -/
def chanLoop (start stop : List Nat) (t : Nat) :
    CentersVal → List Nat → CenterBuf → Except String CenterBuf
  | _, [], buf => .ok buf
  | var, ch :: rest, buf => do
    let rows ← centersAccess var t ch
    let rows := if rows.length ≠ 0 then rows.drop 1 else rows
    let buf := paintRows start stop t ch rows buf
    chanLoop start stop t (.rows rows) rest buf

/-- Python `xs[-1]` on a list: the last element, IndexError when empty. -/
def pyLast (l : List Nat) : Except String Nat :=
  match l.getLast? with
  | some v => .ok v
  | none => .error ("IndexError")

/-- Python `xs[i]` on a list of numbers (non-negative index). -/
def pyAt (l : List Nat) (i : Nat) : Except String Nat :=
  match l.get? i with
  | some v => .ok v
  | none => .error ("IndexError")

/-- The outer `for t in range(roi.start[0], roi.stop[0])` loop: re-fetches the
RegionCenters dict for `[t]` at each iteration, then runs the channel loop. -/
def timeLoop (tbl : CentersTable) (start stop : List Nat) :
    List Nat → CenterBuf → Except String CenterBuf
  | [], buf => .ok buf
  | t :: rest, buf => do
    let chStart ← pyLast start
    let chStop ← pyLast stop
    let buf ← chanLoop start stop t (.dict [(t, tbl t)]) (List.range' chStart (chStop - chStart)) buf
    timeLoop tbl start stop rest buf

/-- OpObjectCenterImage.execute: zeroes the destination buffer (`result[:] = 0`),
then paints a cross at every non-background region center of every requested
time and channel, clipped to the requested roi. -/
def opObjectCenterImage_execute (tbl : CentersTable) (start stop : List Nat)
    (result : CenterBuf) : Except String CenterBuf := do
  let result : CenterBuf := fun _ => 0
  let t0 ← pyAt start 0
  let t1 ← pyAt stop 0
  timeLoop tbl start stop (List.range' t0 (t1 - t0)) result

/-- The center voxel plus its 6 axis-aligned neighbours at distance 1: the seven
distinct coordinates reachable by offsetting one spatial axis of
`[t, x, y, z, ch]` at a time. -/
def sevenCross (t ch x y z : Nat) : List (List Int) :=
  [ [(t : Int), (x : Int), (y : Int), (z : Int), (ch : Int)],
    [(t : Int), (x : Int) - 1, (y : Int), (z : Int), (ch : Int)],
    [(t : Int), (x : Int) + 1, (y : Int), (z : Int), (ch : Int)],
    [(t : Int), (x : Int), (y : Int) - 1, (z : Int), (ch : Int)],
    [(t : Int), (x : Int), (y : Int) + 1, (z : Int), (ch : Int)],
    [(t : Int), (x : Int), (y : Int), (z : Int) - 1, (ch : Int)],
    [(t : Int), (x : Int), (y : Int), (z : Int) + 1, (ch : Int)] ]

/-- All absolute coordinates painted by OpObjectCenterImage.execute for the time
range `[t0, t1)` and the single channel `ch`: the bumped cross coordinates of
every non-background row (row 0 stripped) of each addressed RegionCenter table. -/
def allMarks (tbl : CentersTable) (t0 t1 ch : Nat) : List (List Int) :=
  (List.range' t0 (t1 - t0)).flatMap (fun t =>
    (((tbl t).getD ch []).drop 1).flatMap (crossCoordsOf t ch))

/-- The buffer OpObjectCenterImage.execute is expected to produce: 255 at the
roi-relative key of every painted coordinate that falls inside the roi, 0
everywhere else. -/
def expectedCenterBuf (tbl : CentersTable) (start stop : List Nat) (t0 t1 ch : Nat) :
    CenterBuf :=
  fun k => if (allMarks tbl t0 t1 ch).any
      (fun c => containedInSubregion start stop c && decide (k = makeKey start c)) then 255 else 0

/-! Helper lemmas about the `Except` monad and `pyAssert`. -/

theorem err_bind {ε α β : Type} (e : ε) (f : α → Except ε β) :
    (Except.error e >>= f) = Except.error e := rfl

theorem ok_bind {ε α β : Type} (a : α) (f : α → Except ε β) :
    (Except.ok a >>= f) = f a := rfl

theorem map_err {ε α β : Type} (e : ε) (f : α → β) :
    (f <$> (Except.error e : Except ε α)) = Except.error e := rfl

theorem map_ok {ε α β : Type} (a : α) (f : α → β) :
    (f <$> (Except.ok a : Except ε α)) = Except.ok (f a) := rfl

theorem pure_bind_ex {ε α β : Type} (a : α) (f : α → Except ε β) :
    ((pure a : Except ε α) >>= f) = f a := rfl

theorem pure_eq_ok {ε α : Type} (a : α) : (pure a : Except ε α) = Except.ok a := rfl

theorem pyAssert_false (m : String) :
    pyAssert false m = .error ("AssertionError: " ++ m) := rfl

theorem pyAssert_true (m : String) : pyAssert true m = .ok () := rfl

/-! Theorems for the claims, preceded by the helper lemmas they share. -/

theorem assert_ok_of_bind_ok {γ : Type} {b : Bool} {m : String} {rest : Except String γ} {x : γ}
    (h : (pyAssert b m >>= fun _ => rest) = .ok x) : b = true ∧ rest = .ok x := by
  cases b
  · rw [pyAssert_false, err_bind] at h
    exact absurd h (by simp)
  · rw [pyAssert_true, ok_bind] at h
    exact ⟨rfl, h⟩

theorem setupOutputs3d_ok_meta {raw label : SlotMeta} {m : SlotMeta}
    (h : opRegionFeatures3d_setupOutputs raw label = .ok m) :
    label.shape = raw.shape ∧ label.axistags = raw.axistags := by
  unfold opRegionFeatures3d_setupOutputs at h
  obtain ⟨h1, h⟩ := assert_ok_of_bind_ok h
  obtain ⟨h2, -⟩ := assert_ok_of_bind_ok h
  exact ⟨of_decide_eq_true h1, of_decide_eq_true h2⟩

theorem setupOutputsCached_ok_meta {raw label : SlotMeta} {n : Nat} {bs : List Nat}
    (h : opCachedRegionFeatures_setupOutputs raw label n = .ok bs) :
    label.shape = raw.shape ∧ label.axistags = raw.axistags := by
  unfold opCachedRegionFeatures_setupOutputs at h
  obtain ⟨h1, h⟩ := assert_ok_of_bind_ok h
  obtain ⟨h2, -⟩ := assert_ok_of_bind_ok h
  exact ⟨of_decide_eq_true h1, of_decide_eq_true h2⟩

/-- C3: setup of OpRegionFeatures3d and OpCachedRegionFeatures fails with a
precondition (assertion) error whenever the raw and label inputs have different
shapes or different axis-tag sequences, and publishes output metadata only when
both are identical. -/
theorem setupOutputs_requires_matching_meta (raw label : SlotMeta) (n : Nat) :
    ((label.shape ≠ raw.shape ∨ label.axistags ≠ raw.axistags) →
      (∃ e, opRegionFeatures3d_setupOutputs raw label = .error e) ∧
      (∃ e, opCachedRegionFeatures_setupOutputs raw label n = .error e)) ∧
    (∀ m, opRegionFeatures3d_setupOutputs raw label = .ok m →
      label.shape = raw.shape ∧ label.axistags = raw.axistags) ∧
    (∀ bs, opCachedRegionFeatures_setupOutputs raw label n = .ok bs →
      label.shape = raw.shape ∧ label.axistags = raw.axistags) := by
  refine ⟨?_, fun m h => setupOutputs3d_ok_meta h, fun bs h => setupOutputsCached_ok_meta h⟩
  intro hne
  constructor
  · cases h3d : opRegionFeatures3d_setupOutputs raw label with
    | error e => exact ⟨e, rfl⟩
    | ok m =>
      obtain ⟨hs, ht⟩ := setupOutputs3d_ok_meta h3d
      rcases hne with hne | hne
      · exact absurd hs hne
      · exact absurd ht hne
  · cases hc : opCachedRegionFeatures_setupOutputs raw label n with
    | error e => exact ⟨e, rfl⟩
    | ok bs =>
      obtain ⟨hs, ht⟩ := setupOutputsCached_ok_meta hc
      rcases hne with hne | hne
      · exact absurd hs hne
      · exact absurd ht hne

theorem setupOutputs_requires_matching_meta_witness :
    (∃ e, opRegionFeatures3d_setupOutputs ⟨[4, 5], ['x', 'y']⟩ ⟨[4, 6], ['x', 'y']⟩ = .error e) ∧
    (∃ e, opCachedRegionFeatures_setupOutputs ⟨[4, 5], ['x', 'y']⟩ ⟨[4, 6], ['x', 'y']⟩ 2
      = .error e) :=
  (setupOutputs_requires_matching_meta ⟨[4, 5], ['x', 'y']⟩ ⟨[4, 6], ['x', 'y']⟩ 2).1
    (Or.inl (by decide))

/-- C9: a direct execute call on the purely-routing composite operators
OpObjectExtraction, OpRegionFeatures and OpCachedRegionFeatures always fails with
an unconditional assertion error and never returns a result. -/
theorem composite_execute_always_fails {α : Type} (slot subindex : Nat)
    (start stop : List Nat) (r : α) :
    opObjectExtraction_execute slot subindex start stop r
        = .error ("AssertionError: Shouldn\x27t get here.") ∧
    opRegionFeatures_execute slot subindex start stop r
        = .error ("AssertionError: Shouldn\x27t get here.") ∧
    opCachedRegionFeatures_execute slot subindex start stop r
        = .error ("AssertionError: Shouldn\x27t get here.") :=
  ⟨rfl, rfl, rfl⟩

/-- C10: OpObjectCenterImage.propagateDirty marks the entire Output extent dirty
for any dirty notice on RegionCenters, and propagates nothing for a dirty notice
on BinaryImage. -/
theorem opObjectCenterImage_propagateDirty_spec (outputShape start stop : List Nat) :
    opObjectCenterImage_propagateDirty outputShape .regionCenters start stop
        = some (List.replicate outputShape.length 0, outputShape) ∧
    opObjectCenterImage_propagateDirty outputShape .binaryImage start stop = none :=
  ⟨rfl, rfl⟩

/-! Ordered-dict lemmas shared by the dirty-propagation and adapter claims. -/

theorem odHasKey_iff {d : ODict} {k : Char} : odHasKey d k = true ↔ k ∈ odKeys d := by
  simp [odHasKey, odKeys, List.any_eq_true]

theorem odSet_of_not_has {d : ODict} {k : Char} (v : Nat) (h : ¬ k ∈ odKeys d) :
    odSet d k v = d ++ [(k, v)] := by
  induction d with
  | nil => rfl
  | cons p rest ih =>
    simp only [odKeys, List.map_cons, List.mem_cons] at h
    push_neg at h
    have hpk : ¬ p.1 = k := fun hpk => h.1 hpk.symm
    simp [odSet, hpk, ih h.2]

theorem foldl_odSet_of_nodup (ps : List (Char × Nat)) :
    ∀ acc : ODict, (ps.map Prod.fst).Nodup → (∀ p ∈ ps, ¬ p.1 ∈ odKeys acc) →
      ps.foldl (fun d p => odSet d p.1 p.2) acc = acc ++ ps := by
  induction ps with
  | nil => simp
  | cons p rest ih =>
    intro acc hnd hdisj
    simp only [List.map_cons, List.nodup_cons] at hnd
    rw [List.foldl_cons, odSet_of_not_has p.2 (hdisj p (by simp))]
    have hstep : ∀ q ∈ rest, ¬ q.1 ∈ odKeys (acc ++ [(p.1, p.2)]) := by
      intro q hq
      simp only [odKeys, List.map_append, List.mem_append, List.map_cons, List.map_nil,
        List.mem_cons, List.not_mem_nil, or_false]
      push_neg
      exact ⟨hdisj q (List.mem_cons_of_mem p hq),
        fun hqp => hnd.1 (hqp ▸ List.mem_map_of_mem Prod.fst hq)⟩
    rw [ih (acc ++ [(p.1, p.2)]) hnd.2 hstep]
    simp

theorem mkODict_self {ps : List (Char × Nat)} (h : (ps.map Prod.fst).Nodup) :
    mkODict ps = ps := by
  unfold mkODict
  rw [foldl_odSet_of_nodup ps [] h (by simp [odKeys])]
  rfl

theorem odDel_eq_filter {d : ODict} {k : Char} (hnd : (odKeys d).Nodup)
    (hmem : k ∈ odKeys d) : odDel d k = .ok (d.filter (fun p => p.1 ≠ k)) := by
  induction d with
  | nil => simp [odKeys] at hmem
  | cons p rest ih =>
    simp only [odKeys, List.map_cons, List.nodup_cons] at hnd
    by_cases hpk : p.1 = k
    · have hrest : List.filter (fun q => !decide (q.1 = k)) rest = rest := by
        rw [List.filter_eq_self]
        intro a ha
        simp only [Bool.not_eq_true', decide_eq_false_iff_not]
        intro hak
        have hp : p.1 ∈ List.map Prod.fst rest := by
          rw [hpk, ← hak]
          exact List.mem_map_of_mem Prod.fst ha
        exact hnd.1 hp
      simp only [odDel, if_pos hpk, List.filter_cons]
      rw [show (decide (p.1 ≠ k)) = false by simp [hpk]]
      simp [hrest]
    · simp only [odKeys, List.map_cons, List.mem_cons] at hmem
      rcases hmem with hmem | hmem
      · exact absurd hmem.symm hpk
      · simp only [odDel, if_neg hpk, ih hnd.2 hmem, List.filter_cons]
        rw [show (decide (p.1 ≠ k)) = true by simp [hpk]]
        simp [Except.map]

theorem odKeys_filter_ne (d : ODict) (k : Char) :
    odKeys (d.filter (fun p => p.1 ≠ k)) = (odKeys d).filter (fun c => c ≠ k) := by
  induction d with
  | nil => rfl
  | cons p rest ih =>
    simp only [odKeys, ne_eq, decide_not] at ih ⊢
    by_cases hp : p.1 = k
    · simp [List.filter_cons, hp, ih]
    · simp [List.filter_cons, hp, ih]

theorem filter_ne_xyz (l : List (Char × Nat)) :
    ((l.filter (fun p => p.1 ≠ 'x')).filter (fun p => p.1 ≠ 'y')).filter (fun p => p.1 ≠ 'z')
      = l.filter (fun p => p.1 ∉ xyzAxes) := by
  rw [List.filter_filter, List.filter_filter]
  apply List.filter_congr
  intro p _
  by_cases h1 : p.1 = 'x' <;> by_cases h2 : p.1 = 'y' <;> by_cases h3 : p.1 = 'z' <;>
    simp [xyzAxes, h1, h2, h3]

/-- Triple deletion of the x, y, z entries from an ordered dict with distinct keys
containing all three: it succeeds and is the same as filtering the spatial keys out. -/
theorem odDel_xyz (d : ODict) (hnd : (odKeys d).Nodup)
    (hx : 'x' ∈ odKeys d) (hy : 'y' ∈ odKeys d) (hz : 'z' ∈ odKeys d) :
    odDel d 'x' = .ok (d.filter (fun p => p.1 ≠ 'x')) ∧
    odDel (d.filter (fun p => p.1 ≠ 'x')) 'y'
      = .ok ((d.filter (fun p => p.1 ≠ 'x')).filter (fun p => p.1 ≠ 'y')) ∧
    odDel ((d.filter (fun p => p.1 ≠ 'x')).filter (fun p => p.1 ≠ 'y')) 'z'
      = .ok (d.filter (fun p => p.1 ∉ xyzAxes)) := by
  have hnd1 : (odKeys (d.filter (fun p => p.1 ≠ 'x'))).Nodup := by
    rw [odKeys_filter_ne]
    exact hnd.filter _
  have hmem1 : 'y' ∈ odKeys (d.filter (fun p => p.1 ≠ 'x')) := by
    rw [odKeys_filter_ne]
    exact List.mem_filter.mpr ⟨hy, by decide⟩
  have hnd2 : (odKeys ((d.filter (fun p => p.1 ≠ 'x')).filter (fun p => p.1 ≠ 'y'))).Nodup := by
    rw [odKeys_filter_ne]
    exact hnd1.filter _
  have hmem2 : 'z' ∈ odKeys ((d.filter (fun p => p.1 ≠ 'x')).filter (fun p => p.1 ≠ 'y')) := by
    rw [odKeys_filter_ne, odKeys_filter_ne]
    exact List.mem_filter.mpr ⟨List.mem_filter.mpr ⟨hz, by decide⟩, by decide⟩
  refine ⟨odDel_eq_filter hnd hx, odDel_eq_filter hnd1 hmem1, ?_⟩
  rw [odDel_eq_filter hnd2 hmem2, filter_ne_xyz]

/-- C4: OpRegionFeatures3d.propagateDirty marks Output dirty over exactly the box
obtained by deleting the x, y and z components from the dirty roi's start and stop
vectors, keeping the t and c components in their original order; no spatial
coordinate survives into the propagated roi. -/
theorem opRegionFeatures3d_propagateDirty_drops_spatial
    (rawMeta : SlotMeta) (start stop : List Nat)
    (hnd : rawMeta.axistags.Nodup)
    (hlen : rawMeta.axistags.length = rawMeta.shape.length)
    (hs : start.length = rawMeta.axistags.length)
    (hp : stop.length = rawMeta.axistags.length)
    (hx : 'x' ∈ rawMeta.axistags) (hy : 'y' ∈ rawMeta.axistags)
    (hz : 'z' ∈ rawMeta.axistags) :
    opRegionFeatures3d_propagateDirty rawMeta start stop =
      .ok (((rawMeta.axistags.zip start).filter (fun p => p.1 ∉ xyzAxes)).map Prod.snd,
           ((rawMeta.axistags.zip stop).filter (fun p => p.1 ∉ xyzAxes)).map Prod.snd) := by
  have hzipkeys : ∀ l : List Nat, l.length = rawMeta.axistags.length →
      odKeys (rawMeta.axistags.zip l) = rawMeta.axistags := by
    intro l hl
    exact List.map_fst_zip _ _ (le_of_eq hl.symm)
  have hzipnd : ∀ l : List Nat, l.length = rawMeta.axistags.length →
      (odKeys (rawMeta.axistags.zip l)).Nodup := by
    intro l hl
    rw [hzipkeys _ hl]
    exact hnd
  have hkeys : odKeys (getTaggedShape rawMeta) = rawMeta.axistags := by
    unfold getTaggedShape
    rw [mkODict_self (hzipnd _ hlen.symm)]
    exact hzipkeys _ hlen.symm
  have hmk : ∀ l : List Nat, l.length = rawMeta.axistags.length →
      mkODict (rawMeta.axistags.zip l) = rawMeta.axistags.zip l := by
    intro l hl
    exact mkODict_self (hzipnd _ hl)
  have hdels : _ ∧ _ ∧ _ := odDel_xyz (rawMeta.axistags.zip start)
    (hzipnd _ hs) (by rw [hzipkeys _ hs]; exact hx)
    (by rw [hzipkeys _ hs]; exact hy) (by rw [hzipkeys _ hs]; exact hz)
  have hdelp : _ ∧ _ ∧ _ := odDel_xyz (rawMeta.axistags.zip stop)
    (hzipnd _ hp) (by rw [hzipkeys _ hp]; exact hx)
    (by rw [hzipkeys _ hp]; exact hy) (by rw [hzipkeys _ hp]; exact hz)
  unfold opRegionFeatures3d_propagateDirty
  simp only [hkeys, hmk _ hs, hmk _ hp, hdels.1, hdels.2.1, hdels.2.2,
    hdelp.1, hdelp.2.1, hdelp.2.2, ok_bind]
  rfl

theorem opRegionFeatures3d_propagateDirty_drops_spatial_witness :
    opRegionFeatures3d_propagateDirty ⟨[2, 4, 4, 4, 3], ['t', 'x', 'y', 'z', 'c']⟩
        [0, 1, 1, 1, 0] [1, 2, 3, 4, 2] =
      .ok ((((['t', 'x', 'y', 'z', 'c'] : List Char).zip [0, 1, 1, 1, 0]).filter
              (fun p => p.1 ∉ xyzAxes)).map Prod.snd,
           (((['t', 'x', 'y', 'z', 'c'] : List Char).zip [1, 2, 3, 4, 2]).filter
              (fun p => p.1 ∉ xyzAxes)).map Prod.snd) :=
  opRegionFeatures3d_propagateDirty_drops_spatial ⟨[2, 4, 4, 4, 3], ['t', 'x', 'y', 'z', 'c']⟩
    [0, 1, 1, 1, 0] [1, 2, 3, 4, 2] (by decide) (by decide) (by decide) (by decide)
    (by decide) (by decide) (by decide)

/-! Coordinate-arithmetic lemmas for the slot-request model. -/

theorem zipWith_replicate_same {α β γ : Type} (f : α → β → γ) (n : Nat) (a : α) (b : β) :
    List.zipWith f (List.replicate n a) (List.replicate n b) = List.replicate n (f a b) := by
  induction n with
  | zero => rfl
  | succ k ih => simp [List.replicate_succ, ih]

theorem listAdd_zeros (n : Nat) (xs : List Nat) (h : xs.length = n) :
    listAdd (List.replicate n 0) xs = xs := by
  subst h
  induction xs with
  | nil => rfl
  | cons x rest ih => simpa [listAdd, List.replicate_succ] using ih

theorem listSub_zeros (xs : List Nat) :
    listSub xs (List.replicate xs.length 0) = xs := by
  induction xs with
  | nil => rfl
  | cons x rest ih => simpa [listSub, List.replicate_succ] using ih

theorem expandCoord_length (tags keep : List Char) (c : List Nat) :
    (expandCoord tags keep c).length = tags.length := by
  induction tags generalizing c with
  | nil => rfl
  | cons a rest ih =>
    unfold expandCoord
    by_cases h : a ∈ keep <;> simp [h, ih]

/-- A full-volume request never hits the inverted-roi error: it returns the
whole-shape sub-array. -/
theorem slotReadAll_ok {α : Type} (a : NdArray α) :
    slotReadAll a = .ok (subArray a (List.replicate a.shape.length 0) a.shape) := by
  unfold slotReadAll slotRequest
  rw [if_pos]
  intro p hp
  rw [List.eq_of_mem_replicate (List.of_mem_zip hp).1]
  exact Nat.zero_le _

/-- Restricting the whole-volume sub-array to a subset of the axes is
restricting the volume itself. -/
theorem withAxes_subArray_full {α : Type} (tags keep : List Char) (a : NdArray α)
    (h : tags.length = a.shape.length) :
    withAxes tags keep (subArray a (List.replicate a.shape.length 0) a.shape)
      = withAxes tags keep a := by
  unfold withAxes subArray
  congr 1
  · rw [listSub_zeros a.shape]
  · funext c
    simp only
    rw [listAdd_zeros _ _ (by rw [expandCoord_length, h])]

/-- Closed-form evaluation of OpRegionFeatures3d.execute on a valid single-cell
roi: the result is the incoming buffer with the whole-volume feature record
stored at the roi's start. -/
theorem execute3d_eval {α β γ : Type}
    (extract : NdArray α → NdArray β → γ)
    (rawTags labelTags : List Char) (raw : NdArray α) (label : NdArray β)
    (n : Nat) (start stop : List Nat) (result : List Nat → γ)
    (hnd : rawTags.Nodup)
    (hrl : rawTags.length = raw.shape.length)
    (hll : labelTags.length = label.shape.length)
    (hstart : start = List.replicate n 0) (hstop : stop = List.replicate n 1) :
    opRegionFeatures3d_execute extract rawTags labelTags raw label n start stop result =
      .ok (fun c => if c = start then
          extract (withAxes rawTags (rawTags.filter (fun k => k ∈ xyzAxes)) raw)
                  (withAxes labelTags (rawTags.filter (fun k => k ∈ xyzAxes)) label)
        else result c) := by
  subst hstart hstop
  have hzipsub : listSub (List.replicate n 1) (List.replicate n 0) = List.replicate n 1 :=
    zipWith_replicate_same _ n _ _
  have hzip10 : (List.replicate n (1 : Nat)).zip (List.replicate n (0 : Nat))
      = List.replicate n ((1 : Nat), (0 : Nat)) := zipWith_replicate_same _ n _ _
  have hzip01 : (List.replicate n (0 : Nat)).zip (List.replicate n (1 : Nat))
      = List.replicate n ((0 : Nat), (1 : Nat)) := zipWith_replicate_same _ n _ _
  have hkeys : odKeys (mkODict (rawTags.zip raw.shape)) = rawTags := by
    have hz : (rawTags.zip raw.shape).map Prod.fst = rawTags :=
      List.map_fst_zip _ _ (le_of_eq hrl)
    rw [mkODict_self (by rw [hz]; exact hnd)]
    exact hz
  have hwr : ∀ keep, withAxes rawTags keep
      (subArray raw (List.replicate raw.shape.length 0) raw.shape)
        = withAxes rawTags keep raw :=
    fun keep => withAxes_subArray_full _ keep _ hrl
  have hwl : ∀ keep, withAxes labelTags keep
      (subArray label (List.replicate label.shape.length 0) label.shape)
        = withAxes labelTags keep label :=
    fun keep => withAxes_subArray_full _ keep _ hll
  simp only [opRegionFeatures3d_execute, bufWrite, hzipsub, hzip10, hzip01, hkeys,
    slotReadAll_ok, hwr, hwl,
    List.length_replicate, and_self, decide_True, pyAssert_true, ok_bind, List.map_replicate,
    List.prod_replicate, Nat.cast_one, Nat.cast_zero, sub_zero, one_pow, List.mem_replicate,
    Nat.zero_lt_one, and_imp, if_true]
  simp
  constructor
  · rw [hzipsub]
    simp
  · rw [hzipsub, hzip01]
    intro x y hxy
    injection List.eq_of_mem_replicate hxy with h1 h2
    subst h1
    subst h2
    exact Nat.zero_lt_one

/-- C1: on every request whose roi addresses exactly one (t,c) cell,
OpRegionFeatures3d.execute reads the ENTIRE RawVolume and LabelVolume (not just
the data overlapping the roi), computes one feature record over those whole
volumes (restricted to their spatial xyz axes), and stores it at the roi's start
coordinate; the stored record does not depend on the roi. -/
theorem opRegionFeatures3d_execute_whole_volume {α β γ : Type}
    (extract : NdArray α → NdArray β → γ)
    (rawTags labelTags : List Char) (raw : NdArray α) (label : NdArray β)
    (n : Nat) (start stop : List Nat) (result : List Nat → γ)
    (hnd : rawTags.Nodup)
    (hrl : rawTags.length = raw.shape.length)
    (hll : labelTags.length = label.shape.length)
    (hstart : start = List.replicate n 0) (hstop : stop = List.replicate n 1) :
    opRegionFeatures3d_execute extract rawTags labelTags raw label n start stop result =
      .ok (fun c => if c = start then
          extract (withAxes rawTags (rawTags.filter (fun k => k ∈ xyzAxes)) raw)
                  (withAxes labelTags (rawTags.filter (fun k => k ∈ xyzAxes)) label)
        else result c) :=
  execute3d_eval extract rawTags labelTags raw label n start stop result hnd hrl hll hstart hstop

theorem opRegionFeatures3d_execute_whole_volume_witness :
    opRegionFeatures3d_execute
        (fun (a : NdArray Nat) (b : NdArray Nat) => a.data [1, 0, 0] + b.data [0, 0, 0])
        ['t', 'x', 'y', 'z', 'c'] ['t', 'x', 'y', 'z', 'c']
        ⟨[1, 4, 4, 4, 1], fun c => c.sum⟩ ⟨[1, 4, 4, 4, 1], fun c => c.length⟩
        2 [0, 0] [1, 1] (fun _ => 0) =
      .ok (fun c => if c = [0, 0] then
          (fun (a : NdArray Nat) (b : NdArray Nat) => a.data [1, 0, 0] + b.data [0, 0, 0])
            (withAxes ['t', 'x', 'y', 'z', 'c']
              ((['t', 'x', 'y', 'z', 'c'] : List Char).filter (fun k => k ∈ xyzAxes))
              ⟨[1, 4, 4, 4, 1], fun c => c.sum⟩)
            (withAxes ['t', 'x', 'y', 'z', 'c']
              ((['t', 'x', 'y', 'z', 'c'] : List Char).filter (fun k => k ∈ xyzAxes))
              ⟨[1, 4, 4, 4, 1], fun c => c.length⟩)
        else 0) :=
  opRegionFeatures3d_execute_whole_volume _ _ _ _ _ 2 _ _ _ (by decide) (by decide) (by decide)
    (by decide) (by decide)

/-- C8: determinism of both execute implementations with respect to prior request
history: the destination buffer handed in by the framework (the only state a
previous request could have left behind) does not influence the produced data.
OpRegionFeatures3d.execute fills every valid cell of its result from the inputs
alone, and OpObjectCenterImage.execute zeroes its buffer before painting. -/
theorem execute_deterministic {α β γ : Type}
    (extract : NdArray α → NdArray β → γ)
    (rawTags labelTags : List Char) (raw : NdArray α) (label : NdArray β)
    (n : Nat) (start stop : List Nat) (init1 init2 : List Nat → γ)
    (hnd : rawTags.Nodup)
    (hrl : rawTags.length = raw.shape.length)
    (hll : labelTags.length = label.shape.length)
    (hstart : start = List.replicate n 0) (hstop : stop = List.replicate n 1) :
    (∃ o1 o2,
      opRegionFeatures3d_execute extract rawTags labelTags raw label n start stop init1
        = .ok o1 ∧
      opRegionFeatures3d_execute extract rawTags labelTags raw label n start stop init2
        = .ok o2 ∧
      ∀ k, k.length = n → (∀ p ∈ k.zip (listSub stop start), p.1 < p.2) → o1 k = o2 k) ∧
    (∀ (tbl : CentersTable) (cs ce : List Nat) (i1 i2 : CenterBuf),
      opObjectCenterImage_execute tbl cs ce i1 = opObjectCenterImage_execute tbl cs ce i2) := by
  constructor
  · refine ⟨_, _, execute3d_eval extract rawTags labelTags raw label n start stop init1
      hnd hrl hll hstart hstop,
      execute3d_eval extract rawTags labelTags raw label n start stop init2
      hnd hrl hll hstart hstop, ?_⟩
    subst hstart hstop
    intro k hlen hbound
    have hsub : listSub (List.replicate n 1) (List.replicate n 0) = List.replicate n 1 :=
      zipWith_replicate_same _ n _ _
    rw [hsub] at hbound
    have hk : k = List.replicate n 0 := by
      apply List.ext_getElem (by simp [hlen])
      intro i h1 h2
      have hi : i < n := by simpa [hlen] using h1
      have hmem : (k.get ⟨i, h1⟩, 1) ∈ k.zip (List.replicate n 1) := by
        have hzl : i < (k.zip (List.replicate n 1)).length := by
          simp [List.length_zip, hlen, hi]
        have := List.getElem_mem hzl
        rw [List.getElem_zip] at this
        simpa [List.getElem_replicate] using this
      have hlt := hbound _ hmem
      simp only [List.getElem_replicate]
      simpa [Nat.lt_one_iff] using hlt
    rw [hk]
    simp
  · intro tbl cs ce i1 i2
    rfl

theorem execute_deterministic_witness :
    (∃ o1 o2,
      opRegionFeatures3d_execute
          (fun (a : NdArray Nat) (b : NdArray Nat) => a.data [0, 0, 0] + b.data [0, 0, 0])
          ['t', 'x', 'y', 'z', 'c'] ['t', 'x', 'y', 'z', 'c']
          ⟨[1, 4, 4, 4, 1], fun c => c.sum⟩ ⟨[1, 4, 4, 4, 1], fun c => c.length⟩
          2 [0, 0] [1, 1] (fun _ => 7)
        = .ok o1 ∧
      opRegionFeatures3d_execute
          (fun (a : NdArray Nat) (b : NdArray Nat) => a.data [0, 0, 0] + b.data [0, 0, 0])
          ['t', 'x', 'y', 'z', 'c'] ['t', 'x', 'y', 'z', 'c']
          ⟨[1, 4, 4, 4, 1], fun c => c.sum⟩ ⟨[1, 4, 4, 4, 1], fun c => c.length⟩
          2 [0, 0] [1, 1] (fun _ => 9)
        = .ok o2 ∧
      ∀ k, k.length = 2 → (∀ p ∈ k.zip (listSub [1, 1] [0, 0]), p.1 < p.2) → o1 k = o2 k) ∧
    (∀ (tbl : CentersTable) (cs ce : List Nat) (i1 i2 : CenterBuf),
      opObjectCenterImage_execute tbl cs ce i1 = opObjectCenterImage_execute tbl cs ce i2) :=
  execute_deterministic
    (fun (a : NdArray Nat) (b : NdArray Nat) => a.data [0, 0, 0] + b.data [0, 0, 0])
    ['t', 'x', 'y', 'z', 'c'] ['t', 'x', 'y', 'z', 'c']
    ⟨[1, 4, 4, 4, 1], fun c => c.sum⟩ ⟨[1, 4, 4, 4, 1], fun c => c.length⟩
    2 [0, 0] [1, 1] (fun _ => 7) (fun _ => 9) (by decide) (by decide) (by decide)
    (by decide) (by decide)

/-- C5 (code bug): line 265 sets `stop[timeIndex] = 1` instead of `t + 1`, so on
an input with two time steps the empty-roi request — which stands for all valid
times 0..T-1 — crashes with an IndexError at `.flat[0]` when it reaches time 1
(whose fetched box, start 1 to stop 1 along time, is empty) instead of returning
an entry per time.  The empty list is still expanded to `range T` first, so the
failure is identical to requesting the full list. -/
theorem opAdaptTimeListRoi_empty_roi_crashes :
    opAdaptTimeListRoi_execute ⟨[2, 1], ['t', 'c']⟩ ⟨[2, 1], fun c => c.sum⟩ []
      = .error ("IndexError") ∧
    opAdaptTimeListRoi_execute ⟨[2, 1], ['t', 'c']⟩ ⟨[2, 1], fun c => c.sum⟩ []
      = opAdaptTimeListRoi_execute ⟨[2, 1], ['t', 'c']⟩ ⟨[2, 1], fun c => c.sum⟩
          (List.range 2) :=
  ⟨rfl, rfl⟩

/-! Index lemmas connecting `listIndex`, `odGet` and `odSet`. -/

theorem listIndex_getElem {xs : List Char} {k : Char} {i : Nat}
    (h : listIndex xs k = .ok i) : xs[i]? = some k := by
  induction xs generalizing i with
  | nil => exact absurd h (by simp [listIndex])
  | cons x rest ih =>
    unfold listIndex at h
    by_cases hx : x = k
    · rw [if_pos hx] at h
      injection h with h0
      subst h0
      simp [hx]
    · rw [if_neg hx] at h
      cases hrec : listIndex rest k with
      | error e => rw [hrec] at h; exact absurd h (by simp [Except.map])
      | ok j =>
        rw [hrec] at h
        simp only [Except.map] at h
        injection h with h0
        subst h0
        simpa using ih hrec

theorem listIndex_lt {xs : List Char} {k : Char} {i : Nat} (h : listIndex xs k = .ok i) :
    i < xs.length := (List.getElem?_eq_some.mp (listIndex_getElem h)).1

theorem listIndex_mem {xs : List Char} {k : Char} {i : Nat} (h : listIndex xs k = .ok i) :
    k ∈ xs := by
  obtain ⟨hlt, hget⟩ := List.getElem?_eq_some.mp (listIndex_getElem h)
  rw [← hget]
  exact List.getElem_mem hlt

theorem odGet_cons_pos {p : Char × Nat} {rest : ODict} {k : Char} (h : p.1 = k) :
    odGet (p :: rest) k = .ok p.2 := by
  unfold odGet
  rw [List.find?_cons_of_pos _ (by simp [h])]

theorem odGet_cons_neg {p : Char × Nat} {rest : ODict} {k : Char} (h : ¬ p.1 = k) :
    odGet (p :: rest) k = odGet rest k := by
  unfold odGet
  rw [List.find?_cons_of_neg _ (by simp [h])]

theorem odGet_value_at {d : ODict} {k : Char} {i v : Nat}
    (hi : listIndex (odKeys d) k = .ok i) (hv : odGet d k = .ok v) :
    (odValues d)[i]? = some v := by
  induction d generalizing i with
  | nil => exact absurd hi (by simp [listIndex, odKeys])
  | cons p rest ih =>
    have hk : odKeys (p :: rest) = p.1 :: odKeys rest := rfl
    have hval : odValues (p :: rest) = p.2 :: odValues rest := rfl
    rw [hk] at hi
    rw [hval]
    unfold listIndex at hi
    by_cases hpk : p.1 = k
    · rw [if_pos hpk] at hi
      injection hi with h0
      subst h0
      rw [odGet_cons_pos hpk] at hv
      injection hv with hv0
      simp [hv0]
    · rw [if_neg hpk] at hi
      cases hrec : listIndex (odKeys rest) k with
      | error e => rw [hrec] at hi; exact absurd hi (by simp [Except.map])
      | ok j =>
        rw [hrec] at hi
        simp only [Except.map] at hi
        injection hi with h0
        subst h0
        rw [odGet_cons_neg hpk] at hv
        simpa using ih hrec hv

theorem odKeys_cons (p : Char × Nat) (d : ODict) : odKeys (p :: d) = p.1 :: odKeys d := rfl

theorem odValues_cons (p : Char × Nat) (d : ODict) : odValues (p :: d) = p.2 :: odValues d := rfl

theorem odSet_keys_of_mem {d : ODict} {k : Char} (v : Nat) (h : k ∈ odKeys d) :
    odKeys (odSet d k v) = odKeys d := by
  induction d with
  | nil => simp [odKeys] at h
  | cons p rest ih =>
    by_cases hpk : p.1 = k
    · simp [odSet, hpk, odKeys]
    · have hmem : k ∈ odKeys rest := by
        have h2 := h
        simp only [odKeys, List.map_cons, List.mem_cons] at h2
        rcases h2 with h1 | h1
        · exact absurd h1.symm hpk
        · exact h1
      simp [odSet, hpk, odKeys_cons, ih hmem]

theorem odSet_length_of_mem {d : ODict} {k : Char} (v : Nat) (h : k ∈ odKeys d) :
    (odSet d k v).length = d.length := by
  have h2 := congrArg List.length (odSet_keys_of_mem v h)
  simpa [odKeys] using h2

theorem odValues_odSet {d : ODict} {k : Char} {i : Nat} (v : Nat)
    (hi : listIndex (odKeys d) k = .ok i) :
    odValues (odSet d k v) = (odValues d).set i v := by
  induction d generalizing i with
  | nil => exact absurd hi (by simp [listIndex, odKeys])
  | cons p rest ih =>
    have hk : odKeys (p :: rest) = p.1 :: odKeys rest := rfl
    rw [hk] at hi
    unfold listIndex at hi
    by_cases hpk : p.1 = k
    · rw [if_pos hpk] at hi
      injection hi with h0
      subst h0
      simp [odSet, hpk, odValues]
    · rw [if_neg hpk] at hi
      cases hrec : listIndex (odKeys rest) k with
      | error e => rw [hrec] at hi; exact absurd hi (by simp [Except.map])
      | ok j =>
        rw [hrec] at hi
        simp only [Except.map] at hi
        injection hi with h0
        subst h0
        simp [odSet, hpk, odValues_cons, ih hrec]

/-- C6 (code bug): the per-time fetch of lines 262-266 uses
`start[timeIndex] = t` but `stop[timeIndex] = 1`, so for any requested time
index t ≥ 1 no per-channel record can be produced: at t = 1 the fetched box is
empty and `.flat[0]` raises IndexError, and at t ≥ 2 the box is inverted and the
fetch raises a negative-dimension ValueError.  Only t = 0 yields the
channel-split records the claim describes, in channel order. -/
theorem opAdaptTimeListRoi_nonzero_time_crashes :
    opAdaptTimeListRoi_execute ⟨[3, 2], ['t', 'c']⟩
        ⟨[3, 2], fun c => c.getD 0 0 * 10 + c.getD 1 0⟩ [1] = .error ("IndexError") ∧
    opAdaptTimeListRoi_execute ⟨[3, 2], ['t', 'c']⟩
        ⟨[3, 2], fun c => c.getD 0 0 * 10 + c.getD 1 0⟩ [2] = .error ("ValueError") ∧
    opAdaptTimeListRoi_execute ⟨[3, 2], ['t', 'c']⟩
        ⟨[3, 2], fun c => c.getD 0 0 * 10 + c.getD 1 0⟩ [0] = .ok [(0, [0, 1])] :=
  ⟨rfl, rfl, rfl⟩

/-! Evaluation of OpObjectCenterImage.execute. -/

/-- The background strip `if centers.size: centers = centers[1:,:]` is dropping
row 0 in every case (an empty table stays empty). -/
theorem stripBg (rs : List CenterRow) :
    (if rs.length ≠ 0 then rs.drop 1 else rs) = rs.drop 1 := by
  cases rs <;> simp

theorem any_flatMap {α β : Type} (l : List α) (f : α → List β) (p : β → Bool) :
    (l.flatMap f).any p = l.any (fun a => (f a).any p) := by
  induction l with
  | nil => rfl
  | cons a rest ih => simp [List.flatMap_cons, List.any_append, ih]

theorem paintCenter_apply (start stop : List Nat) (t ch : Nat) (row : CenterRow)
    (buf : CenterBuf) (k : List Int) :
    paintCenter start stop t ch row buf k
    = if (crossCoordsOf t ch row).any
          (fun c => containedInSubregion start stop c && decide (k = makeKey start c))
        then 255 else buf k := by
  unfold paintCenter
  generalize crossCoordsOf t ch row = cs
  induction cs generalizing buf with
  | nil => simp
  | cons c rest ih =>
    rw [List.foldl_cons, ih, List.any_cons]
    by_cases h1 : containedInSubregion start stop c = true
    · by_cases h2 : k = makeKey start c
      · simp [h1, h2]
      · simp [h1, h2]
    · have h1f : containedInSubregion start stop c = false := by
        cases hcc : containedInSubregion start stop c
        · rfl
        · exact absurd hcc h1
      simp [h1f]

theorem paintRows_apply (start stop : List Nat) (t ch : Nat) (rs : List CenterRow)
    (buf : CenterBuf) (k : List Int) :
    paintRows start stop t ch rs buf k
    = if rs.any (fun r => (crossCoordsOf t ch r).any
          (fun c => containedInSubregion start stop c && decide (k = makeKey start c)))
        then 255 else buf k := by
  unfold paintRows
  induction rs generalizing buf with
  | nil => simp
  | cons r rest ih =>
    rw [List.foldl_cons, ih, List.any_cons, paintCenter_apply]
    cases hcc : (crossCoordsOf t ch r).any
        (fun c => containedInSubregion start stop c && decide (k = makeKey start c))
    case false =>
      rw [Bool.false_or, if_neg (by simp : ¬ (false = true))]
    case true => simp

theorem chanLoop_single (start stop : List Nat) (t ch : Nat) (tbl : CentersTable)
    (buf : CenterBuf) (hch : ch < (tbl t).length) :
    chanLoop start stop t (.dict [(t, tbl t)]) [ch] buf
      = .ok (paintRows start stop t ch (((tbl t).getD ch []).drop 1) buf) := by
  have hacc : centersAccess (.dict [(t, tbl t)]) t ch = .ok ((tbl t).getD ch []) := by
    have hfind : List.find? (fun p => decide (p.1 = t)) [(t, tbl t)] = some (t, tbl t) :=
      List.find?_cons_of_pos _ (by simp)
    have hget : (tbl t).get? ch = some ((tbl t).getD ch []) := by
      rw [List.get?_eq_getElem?, List.getD_eq_getElem _ _ hch]
      exact List.getElem?_eq_getElem hch
    simp only [centersAccess, hfind, hget]
  unfold chanLoop
  rw [hacc, ok_bind, stripBg]
  rfl

theorem timeLoop_eval (tbl : CentersTable) (start stop : List Nat) (ch : Nat)
    (hstart : pyLast start = .ok ch) (hstop : pyLast stop = .ok (ch + 1)) :
    ∀ (ts : List Nat) (buf : CenterBuf), (∀ u ∈ ts, ch < (tbl u).length) →
    timeLoop tbl start stop ts buf
      = .ok (ts.foldl (fun b u =>
          paintRows start stop u ch (((tbl u).getD ch []).drop 1) b) buf) := by
  intro ts
  induction ts with
  | nil => intro buf h; rfl
  | cons u rest ih =>
    intro buf h
    unfold timeLoop
    rw [hstart, ok_bind, hstop, ok_bind]
    rw [show ch + 1 - ch = 1 from by omega]
    rw [show List.range' ch 1 = [ch] from rfl]
    rw [chanLoop_single start stop u ch tbl buf (h u (by simp)), ok_bind]
    rw [List.foldl_cons]
    exact ih _ (fun v hv => h v (by simp [hv]))

theorem timeFold_apply (tbl : CentersTable) (start stop : List Nat) (ch : Nat)
    (ts : List Nat) (buf : CenterBuf) (k : List Int) :
    (ts.foldl (fun b u => paintRows start stop u ch (((tbl u).getD ch []).drop 1) b) buf) k
    = if (ts.flatMap (fun u =>
          (((tbl u).getD ch []).drop 1).flatMap (crossCoordsOf u ch))).any
          (fun c => containedInSubregion start stop c && decide (k = makeKey start c))
        then 255 else buf k := by
  induction ts generalizing buf with
  | nil => simp
  | cons u rest ih =>
    rw [List.foldl_cons, ih, List.flatMap_cons, List.any_append, paintRows_apply,
      any_flatMap (((tbl u).getD ch []).drop 1) (crossCoordsOf u ch)]
    cases hcc : ((tbl u).getD ch []).drop 1 |>.any (fun r => (crossCoordsOf u ch r).any
        (fun c => containedInSubregion start stop c && decide (k = makeKey start c)))
    case false =>
      rw [Bool.false_or, if_neg (by simp : ¬ (false = true))]
    case true => simp

/-- Closed-form evaluation of OpObjectCenterImage.execute for a single-channel
roi: a zeroed buffer with 255 at the roi-relative key of every in-roi cross
coordinate of every non-background region center of the requested times. -/
theorem centerImage_execute_char (tbl : CentersTable) (start stop : List Nat)
    (result : CenterBuf) (t0 t1 ch : Nat)
    (h0 : pyAt start 0 = .ok t0) (h1 : pyAt stop 0 = .ok t1)
    (hlast : pyLast start = .ok ch) (hstoplast : pyLast stop = .ok (ch + 1))
    (hch : ∀ u ∈ List.range' t0 (t1 - t0), ch < (tbl u).length) :
    opObjectCenterImage_execute tbl start stop result
      = .ok (expectedCenterBuf tbl start stop t0 t1 ch) := by
  unfold opObjectCenterImage_execute
  rw [h0, ok_bind, h1, ok_bind]
  rw [timeLoop_eval tbl start stop ch hlast hstoplast _ _ hch]
  congr 1
  funext k
  rw [timeFold_apply]
  rfl

/-- The nine dim/offset bumps of one center cover exactly the seven distinct
coordinates of the axis-aligned cross (the three zero offsets all give the
center itself). -/
theorem cross_is_seven (u c x y z : Nat) (v : List Int) :
    v ∈ crossCoordsOf u c (x, y, z) ↔ v ∈ sevenCross u c x y z := by
  simp only [crossCoordsOf, csList, bumpAt, sevenCross, List.flatMap_cons, List.flatMap_nil,
    List.map_cons, List.map_nil, List.append_nil, List.mem_append, List.mem_cons,
    List.not_mem_nil, or_false, List.set_cons_succ, List.set_cons_zero,
    List.getD_cons_succ, List.getD_cons_zero, add_zero, sub_eq_add_neg]
  tauto

/-- C2: for every object center taken from a non-background row of the fetched
RegionCenters tables, OpObjectCenterImage.execute marks (255) exactly the center
voxel plus its 6 axis-aligned neighbours at distance 1 (the nine one-axis
-1/0/+1 bumps cover exactly those 7 coordinates), and only those of them that
fall inside the requested roi; every other voxel of the result is 0, and an
empty region-center list yields an all-zero result. -/
theorem opObjectCenterImage_execute_cross
    (tbl : CentersTable) (start stop : List Nat) (result : CenterBuf) (t0 t1 ch : Nat)
    (h0 : pyAt start 0 = .ok t0) (h1 : pyAt stop 0 = .ok t1)
    (hlast : pyLast start = .ok ch) (hstoplast : pyLast stop = .ok (ch + 1))
    (hch : ∀ u ∈ List.range' t0 (t1 - t0), ch < (tbl u).length) :
    (opObjectCenterImage_execute tbl start stop result
        = .ok (expectedCenterBuf tbl start stop t0 t1 ch)) ∧
    (∀ (u c x y z : Nat) (v : List Int),
        v ∈ crossCoordsOf u c (x, y, z) ↔ v ∈ sevenCross u c x y z) ∧
    ((∀ u ∈ List.range' t0 (t1 - t0), (tbl u).getD ch [] = []) →
      opObjectCenterImage_execute tbl start stop result = .ok (fun _ => 0)) := by
  have hchar := centerImage_execute_char tbl start stop result t0 t1 ch h0 h1 hlast
    hstoplast hch
  refine ⟨hchar, fun u c x y z v => cross_is_seven u c x y z v, fun hempty => ?_⟩
  have hnil : allMarks tbl t0 t1 ch = [] := by
    unfold allMarks
    rw [List.flatMap_eq_nil_iff]
    intro u hu
    rw [hempty u hu]
    rfl
  rw [hchar]
  congr 1
  funext k
  unfold expectedCenterBuf
  rw [hnil]
  simp

theorem opObjectCenterImage_execute_cross_witness :
    (opObjectCenterImage_execute (fun _ => [[(3, 3, 3), (5, 5, 5)]])
        [0, 0, 0, 0, 0] [1, 20, 20, 20, 1] (fun _ => 7)
        = .ok (expectedCenterBuf (fun _ => [[(3, 3, 3), (5, 5, 5)]])
            [0, 0, 0, 0, 0] [1, 20, 20, 20, 1] 0 1 0)) ∧
    (∀ (u c x y z : Nat) (v : List Int),
        v ∈ crossCoordsOf u c (x, y, z) ↔ v ∈ sevenCross u c x y z) ∧
    ((∀ u ∈ List.range' 0 (1 - 0),
        ((fun (_ : Nat) => [[((3 : Nat), (3 : Nat), (3 : Nat)), (5, 5, 5)]]) u).getD 0 []
          = []) →
      opObjectCenterImage_execute (fun _ => [[(3, 3, 3), (5, 5, 5)]])
        [0, 0, 0, 0, 0] [1, 20, 20, 20, 1] (fun _ => 7) = .ok (fun _ => 0)) :=
  opObjectCenterImage_execute_cross (fun _ => [[(3, 3, 3), (5, 5, 5)]])
    [0, 0, 0, 0, 0] [1, 20, 20, 20, 1] (fun _ => 7) 0 1 0 rfl rfl rfl rfl (by decide)

/-- C7: row 0 of every fetched RegionCenter table (the reserved background row)
is stripped before any marker is painted, so every nonzero voxel of the
ObjectCenterImage output is attributable to a row of the table AFTER dropping
row 0; no marker voxel comes from label 0. -/
theorem opObjectCenterImage_background_excluded
    (tbl : CentersTable) (start stop : List Nat) (result : CenterBuf) (t0 t1 ch : Nat)
    (out : CenterBuf) (k : List Int)
    (h0 : pyAt start 0 = .ok t0) (h1 : pyAt stop 0 = .ok t1)
    (hlast : pyLast start = .ok ch) (hstoplast : pyLast stop = .ok (ch + 1))
    (hch : ∀ u ∈ List.range' t0 (t1 - t0), ch < (tbl u).length)
    (hok : opObjectCenterImage_execute tbl start stop result = .ok out)
    (hmark : out k ≠ 0) :
    ∃ u ∈ List.range' t0 (t1 - t0), ∃ row ∈ ((tbl u).getD ch []).drop 1,
      ∃ c ∈ crossCoordsOf u ch row,
        containedInSubregion start stop c = true ∧ k = makeKey start c ∧ out k = 255 := by
  rw [centerImage_execute_char tbl start stop result t0 t1 ch h0 h1 hlast hstoplast hch]
    at hok
  injection hok with hok
  subst hok
  unfold expectedCenterBuf at hmark
  by_cases hany : ((allMarks tbl t0 t1 ch).any
      (fun c => containedInSubregion start stop c && decide (k = makeKey start c))) = true
  · obtain ⟨c, hcmem, hcp⟩ := List.any_eq_true.mp hany
    rw [Bool.and_eq_true, decide_eq_true_eq] at hcp
    unfold allMarks at hcmem
    obtain ⟨u, hu, hcu⟩ := List.mem_flatMap.mp hcmem
    obtain ⟨row, hrow, hcr⟩ := List.mem_flatMap.mp hcu
    refine ⟨u, hu, row, hrow, c, hcr, hcp.1, hcp.2, ?_⟩
    unfold expectedCenterBuf
    rw [if_pos hany]
  · rw [if_neg hany] at hmark
    exact absurd rfl hmark

theorem opObjectCenterImage_background_excluded_witness :
    ∃ u ∈ List.range' 0 (1 - 0),
      ∃ row ∈ (((fun (_ : Nat) => [[((3 : Nat), (3 : Nat), (3 : Nat)), (5, 5, 5)]]) u).getD
          0 []).drop 1,
      ∃ c ∈ crossCoordsOf u 0 row,
        containedInSubregion [0, 0, 0, 0, 0] [1, 20, 20, 20, 1] c = true ∧
        ([0, 5, 5, 5, 0] : List Int) = makeKey [0, 0, 0, 0, 0] c ∧
        expectedCenterBuf (fun _ => [[(3, 3, 3), (5, 5, 5)]]) [0, 0, 0, 0, 0]
          [1, 20, 20, 20, 1] 0 1 0 [0, 5, 5, 5, 0] = 255 :=
  opObjectCenterImage_background_excluded (fun _ => [[(3, 3, 3), (5, 5, 5)]])
    [0, 0, 0, 0, 0] [1, 20, 20, 20, 1] (fun _ => 7) 0 1 0
    (expectedCenterBuf (fun _ => [[(3, 3, 3), (5, 5, 5)]]) [0, 0, 0, 0, 0]
      [1, 20, 20, 20, 1] 0 1 0)
    [0, 5, 5, 5, 0] rfl rfl rfl rfl (by decide)
    (centerImage_execute_char (fun _ => [[(3, 3, 3), (5, 5, 5)]]) [0, 0, 0, 0, 0]
      [1, 20, 20, 20, 1] (fun _ => 7) 0 1 0 rfl rfl rfl rfl (by decide))
    (by decide)

end ObjExtract
